import Mathlib

/-!
Formal model of the validate → store → query pipeline implemented in `main.py`.

The pipeline validates raw JSON-like records against two fixed shapes
(`Post`, `User`), sanitizes string fields, loads them into two DuckDB tables
with `CREATE OR REPLACE TABLE` followed by row-by-row parameterized
`INSERT`s, and runs three fixed aggregate queries over the inner join of the
two tables.

Modelling conventions:
* raw records are association lists of JSON values; `pydantic` field lookup
  and coercion is modelled by `getField` / `asInt` / `asStr`;
* the DuckDB file is a `DBState` holding one optional row list per table;
  each table is `none` while it has never been created;
* the loader is modelled as a function of an abstract `LoadOutcome`
  describing where (if anywhere) an `execute` call raised: DuckDB
  auto-commits each statement, so a failure at row `k` leaves the rows
  inserted before it;
* parameter binding stores the bound value verbatim, so the value that lands
  in a text column is exactly `sanitize_string` of the field;
* the three queries are modelled over table contents with a deterministic
  stable sort (`List.insertionSort`) standing in for `ORDER BY ... DESC`;
  grouping is by `users.name`, as in the SQL text.
-/

namespace PipelineModel

/-- JSON-like scalar values appearing in fetched records. -/
inductive JValue where
  | vInt (n : Int)
  | vStr (s : String)
  | vBool (b : Bool)
  | vNull
deriving DecidableEq, Repr

/-- A raw fetched record: an association list from field names to values. -/
abbrev RawRecord := List (String × JValue)

/-- The `Post` shape of `main.py` (pydantic model / table row). -/
structure Post where
  userId : Int
  id : Int
  title : String
  body : String
deriving DecidableEq, Repr

/-- The `User` shape of `main.py` (pydantic model / table row). -/
structure User where
  id : Int
  name : String
  username : String
  email : String
deriving DecidableEq, Repr

/-- Field access on a raw record (first binding wins, as in a JSON object). -/
def getField (r : RawRecord) (k : String) : Option JValue :=
  List.lookup k r

/-- pydantic coercion to `int`: accepts an integer value. -/
def asInt : JValue → Option Int
  | .vInt n => some n
  | _ => none

/-- pydantic coercion to `str`: accepts a string value. -/
def asStr : JValue → Option String
  | .vStr s => some s
  | _ => none

/-- Check one declared `int` field of a record; on failure report the field name. -/
def checkInt (r : RawRecord) (k : String) : Except (List String) Int :=
  match getField r k with
  | none => .error [k]
  | some v =>
    match asInt v with
    | none => .error [k]
    | some n => .ok n

/-- Check one declared `str` field of a record; on failure report the field name. -/
def checkStr (r : RawRecord) (k : String) : Except (List String) String :=
  match getField r k with
  | none => .error [k]
  | some v =>
    match asStr v with
    | none => .error [k]
    | some s => .ok s

/-- The error fields carried by one field check. -/
def errsOf {α : Type} : Except (List String) α → List String
  | .error e => e
  | .ok _ => []

/-- Validate one raw record against the `Post` shape, collecting the names of
all offending fields (as a pydantic `ValidationError` does). Extra fields are
ignored: only the four declared names are looked up. -/
def validatePost (r : RawRecord) : Except (List String) Post :=
  match checkInt r "userId", checkInt r "id", checkStr r "title", checkStr r "body" with
  | .ok a, .ok b, .ok t, .ok bo => .ok ⟨a, b, t, bo⟩
  | e1, e2, e3, e4 => .error (errsOf e1 ++ errsOf e2 ++ errsOf e3 ++ errsOf e4)

/-- Validate one raw record against the `User` shape. -/
def validateUser (r : RawRecord) : Except (List String) User :=
  match checkInt r "id", checkStr r "name", checkStr r "username", checkStr r "email" with
  | .ok a, .ok n, .ok un, .ok em => .ok ⟨a, n, un, em⟩
  | e1, e2, e3, e4 => .error (errsOf e1 ++ errsOf e2 ++ errsOf e3 ++ errsOf e4)

/-- Worker for `validate_data`: validates records left to right and stops at
the first failing record, reporting its index and offending fields. -/
def validateAux {α : Type} (f : RawRecord → Except (List String) α) :
    Nat → List RawRecord → Except (Nat × List String) (List α)
  | _, [] => .ok []
  | i, r :: rs =>
    match f r with
    | .error fs => .error (i, fs)
    | .ok a =>
      match validateAux f (i + 1) rs with
      | .error e => .error e
      | .ok as => .ok (a :: as)

/-- `validate_data` of `main.py`: validate a whole collection with a single
shape; the list comprehension raises on the first record that fails, so the
call either returns all records validated or no records at all. -/
def validate_data {α : Type} (data : List RawRecord)
    (f : RawRecord → Except (List String) α) : Except (Nat × List String) (List α) :=
  validateAux f 0 data

/-- The single-quote character. -/
def squote : Char := Char.ofNat 39

/-- `sanitize_string` of `main.py`: `value.replace(chr(39), chr(39)*2)` —
every single quote is doubled. -/
def sanitize_string (value : String) : String :=
  String.mk (value.data.flatMap fun c => if c = squote then [squote, squote] else [c])

/-- The row the loader binds for a post: parameter binding stores the bound
values verbatim, and the loader binds `sanitize_string` of each text field. -/
def postToRow (p : Post) : Post :=
  { p with title := sanitize_string p.title, body := sanitize_string p.body }

/-- The row the loader binds for a user. -/
def userToRow (u : User) : User :=
  { u with
    name := sanitize_string u.name
    username := sanitize_string u.username
    email := sanitize_string u.email }

/-- The DuckDB file: one optional row list per table (`none` = table absent). -/
structure DBState where
  posts : Option (List Post)
  users : Option (List User)
deriving DecidableEq, Repr

/-- A fresh database file. -/
def emptyDB : DBState := ⟨none, none⟩

/-- Where, if anywhere, an `execute` call of the loader raises. DuckDB
auto-commits each statement (`store_in_duckdb` opens no transaction), so the
effects of all statements before the failing one persist. -/
inductive LoadOutcome where
  | ok
  | failPostsCreate
  | failPostsInsert (k : Nat)
  | failUsersCreate
  | failUsersInsert (k : Nat)
deriving DecidableEq, Repr

/-- `store_in_duckdb` of `main.py`: replace the posts table and insert its
rows one by one, then replace the users table and insert its rows one by one.
A failure aborts the function at that statement, keeping every effect already
committed. -/
def store_in_duckdb (db : DBState) (posts : List Post) (users : List User) :
    LoadOutcome → DBState
  | .failPostsCreate => db
  | .failPostsInsert k => { db with posts := some ((posts.take k).map postToRow) }
  | .failUsersCreate => { db with posts := some (posts.map postToRow) }
  | .failUsersInsert k =>
    { posts := some (posts.map postToRow)
      users := some ((users.take k).map userToRow) }
  | .ok =>
    { posts := some (posts.map postToRow)
      users := some (users.map userToRow) }

/-- Contents of the posts table as seen by a reader (empty if absent). -/
def readPostRows (db : DBState) : List Post := db.posts.getD []

/-- Contents of the users table as seen by a reader (empty if absent). -/
def readUserRows (db : DBState) : List User := db.users.getD []

/-- The `body` column of the posts table, in storage order. -/
def readBodies (db : DBState) : List String := (readPostRows db).map Post.body

/-- The user name of one joined row. -/
def nameOf (row : User × Post) : String := row.1.name

/-- The inner join `posts JOIN users ON posts.userId = users.id`, one row per
matching pair. -/
def joinRows (ps : List Post) (us : List User) : List (User × Post) :=
  ps.flatMap fun p => (us.filter fun u => decide (u.id = p.userId)).map fun u => (u, p)

/-- First-occurrence deduplication, accumulating the names already seen. -/
def dedupKeep (seen : List String) : List String → List String
  | [] => []
  | n :: ns => if n ∈ seen then dedupKeep seen ns else n :: dedupKeep (n :: seen) ns

/-- `ORDER BY <numeric column> DESC` as a relation on result rows. -/
def byCountDesc (a b : String × Nat) : Prop := b.2 ≤ a.2

instance : DecidableRel byCountDesc := fun a b => inferInstanceAs (Decidable (b.2 ≤ a.2))

instance : IsTotal (String × Nat) byCountDesc := ⟨fun a b => Nat.le_total b.2 a.2⟩

instance : IsTrans (String × Nat) byCountDesc :=
  ⟨fun _ _ _ h1 h2 => Nat.le_trans h2 h1⟩

/-- `COUNT(posts.id)` for the group of joined rows carrying one user name. -/
def rowCount (rows : List (User × Post)) (n : String) : Nat :=
  (rows.filter fun row => decide (nameOf row = n)).length

/-- `SUM(LENGTH(posts.body))` for the group of joined rows carrying one user
name. -/
def rowTotal (rows : List (User × Post)) (n : String) : Nat :=
  ((rows.filter fun row => decide (nameOf row = n)).map
    fun row => row.2.body.length).sum

/-- `GROUP BY users.name` with `COUNT(posts.id)` over the joined rows. -/
def groupCounts (rows : List (User × Post)) : List (String × Nat) :=
  (dedupKeep [] (rows.map nameOf)).map fun n => (n, rowCount rows n)

/-- `GROUP BY users.name` with `SUM(LENGTH(posts.body))` over the joined rows. -/
def groupTotals (rows : List (User × Post)) : List (String × Nat) :=
  (dedupKeep [] (rows.map nameOf)).map fun n => (n, rowTotal rows n)

/-- Query A of `query_duckdb`: posts per user name, ordered by count
descending. -/
def queryA (ps : List Post) (us : List User) : List (String × Nat) :=
  List.insertionSort byCountDesc (groupCounts (joinRows ps us))

/-- Query B of `query_duckdb`: the user name and body length of a longest
post (`ORDER BY body_length DESC LIMIT 1`). -/
def queryB (ps : List Post) (us : List User) : Option (String × Nat) :=
  (List.insertionSort byCountDesc
    ((joinRows ps us).map fun row => (nameOf row, row.2.body.length))).head?

/-- Query C of `query_duckdb`: top 3 user names by total body length. -/
def queryC (ps : List Post) (us : List User) : List (String × Nat) :=
  (List.insertionSort byCountDesc (groupTotals (joinRows ps us))).take 3

/-- Number of posts whose `userId` matches a given user's `id`. -/
def matchCount (ps : List Post) (u : User) : Nat :=
  (ps.filter fun p => decide (u.id = p.userId)).length

/-- Whether a field-level validation result is a failure. -/
def isErr {α : Type} : Except (List String) α → Bool
  | .error _ => true
  | .ok _ => false

/-!  ## Theorems for the claims  -/

/-- C1. The loader applies `sanitize_string` *and* parameter binding, so the
doubled quote is stored literally: storing the body `a'b` and reading the
column back yields `a''b`, not `a'b` — the round-trip demanded by the spec
fails on every string containing a single quote. -/
theorem c1_roundtrip_breaks_on_quote :
    readBodies (store_in_duckdb emptyDB [⟨1, 1, "t", "a'b"⟩] [] .ok) = ["a''b"] ∧
      ("a''b" : String) ≠ "a'b" := by
  constructor
  · rfl
  · decide

/-- C2 counterexample. With the previous posts table holding one row and an
insert failure after the first of two input rows, the observable posts table
is neither fully populated with both input rows nor the untouched previous
state: `CREATE OR REPLACE` plus auto-committed inserts leave the partial
prefix visible. -/
theorem c2_load_not_atomic :
    (store_in_duckdb ⟨some [⟨9, 9, "x", "y"⟩], none⟩
        [⟨1, 1, "t1", "b1"⟩, ⟨2, 2, "t2", "b2"⟩] [] (.failPostsInsert 1)).posts ≠
        some ([⟨1, 1, "t1", "b1"⟩, ⟨2, 2, "t2", "b2"⟩].map postToRow) ∧
      (store_in_duckdb ⟨some [⟨9, 9, "x", "y"⟩], none⟩
        [⟨1, 1, "t1", "b1"⟩, ⟨2, 2, "t2", "b2"⟩] [] (.failPostsInsert 1)).posts ≠
        some [⟨9, 9, "x", "y"⟩] := by
  constructor
  · decide
  · decide

/-- C2 amended. What the loader actually guarantees: on success a table holds
exactly the mapped input rows; on a row-insert failure at index `k` the table
holds exactly the first `k` rows of the current run — the previous contents
are gone either way. -/
theorem c2_amended_kept_rows (db : DBState) (ps : List Post) (us : List User)
    (k : Nat) :
    (store_in_duckdb db ps us .ok).posts = some (ps.map postToRow) ∧
      (store_in_duckdb db ps us .ok).users = some (us.map userToRow) ∧
      (store_in_duckdb db ps us (.failPostsInsert k)).posts =
        some ((ps.take k).map postToRow) ∧
      (store_in_duckdb db ps us (.failUsersInsert k)).users =
        some ((us.take k).map userToRow) :=
  ⟨rfl, rfl, rfl, rfl⟩

/-- C7. The loader replaces both tables without reading the previous state,
so a second run with the same validated records reproduces the same database
state — hence identical results for all three queries — and row counts equal
the input sizes (no accumulation). -/
theorem c7_full_refresh_idempotent (db : DBState) (ps : List Post) (us : List User) :
    store_in_duckdb (store_in_duckdb db ps us .ok) ps us .ok =
        store_in_duckdb db ps us .ok ∧
      queryA (readPostRows (store_in_duckdb (store_in_duckdb db ps us .ok) ps us .ok))
          (readUserRows (store_in_duckdb (store_in_duckdb db ps us .ok) ps us .ok)) =
        queryA (readPostRows (store_in_duckdb db ps us .ok))
          (readUserRows (store_in_duckdb db ps us .ok)) ∧
      queryB (readPostRows (store_in_duckdb (store_in_duckdb db ps us .ok) ps us .ok))
          (readUserRows (store_in_duckdb (store_in_duckdb db ps us .ok) ps us .ok)) =
        queryB (readPostRows (store_in_duckdb db ps us .ok))
          (readUserRows (store_in_duckdb db ps us .ok)) ∧
      queryC (readPostRows (store_in_duckdb (store_in_duckdb db ps us .ok) ps us .ok))
          (readUserRows (store_in_duckdb (store_in_duckdb db ps us .ok) ps us .ok)) =
        queryC (readPostRows (store_in_duckdb db ps us .ok))
          (readUserRows (store_in_duckdb db ps us .ok)) ∧
      (readPostRows (store_in_duckdb (store_in_duckdb db ps us .ok) ps us .ok)).length =
        ps.length ∧
      (readUserRows (store_in_duckdb (store_in_duckdb db ps us .ok) ps us .ok)).length =
        us.length := by
  refine ⟨rfl, rfl, rfl, rfl, ?_, ?_⟩
  · simp [readPostRows, store_in_duckdb]
  · simp [readUserRows, store_in_duckdb]

/-- C10. The loader populates the posts table before touching the users
table: whether the users phase fails at table creation or at any insert, the
posts table already holds the current run's full data — the load is not
atomic across the two tables. -/
theorem c10_posts_loaded_before_users (db : DBState) (ps : List Post)
    (us : List User) (k : Nat) :
    (store_in_duckdb db ps us .failUsersCreate).posts = some (ps.map postToRow) ∧
      (store_in_duckdb db ps us (.failUsersInsert k)).posts =
        some (ps.map postToRow) ∧
      (store_in_duckdb db ps us .failUsersCreate).users = db.users :=
  ⟨rfl, rfl, rfl⟩

/-- Validation helper: if some record of the collection fails, `validateAux`
starting at index `i` reports the index (offset by `i`) and offending fields
of the first failing record. -/
theorem validateAux_error_of_mem {α : Type} (f : RawRecord → Except (List String) α) :
    ∀ (data : List RawRecord) (i : Nat),
      (∃ r ∈ data, isErr (f r) = true) →
      ∃ j fs, validateAux f i data = .error (i + j, fs) ∧
        ∃ r, data.get? j = some r ∧ f r = .error fs := by
  intro data
  induction data with
  | nil => intro i h; simp at h
  | cons r rs ih =>
    intro i h
    cases hr : f r with
    | error fs =>
      refine ⟨0, fs, ?_, r, rfl, hr⟩
      simp [validateAux, hr]
    | ok a =>
      have h' : ∃ r' ∈ rs, isErr (f r') = true := by
        obtain ⟨r', hmem, herr⟩ := h
        rcases List.mem_cons.mp hmem with h1 | h1
        · rw [h1, hr] at herr; simp [isErr] at herr
        · exact ⟨r', h1, herr⟩
      obtain ⟨j, fs, heq, r', hget, herr⟩ := ih (i + 1) h'
      refine ⟨j + 1, fs, ?_, r', ?_, herr⟩
      · have hidx : i + (j + 1) = i + 1 + j := by omega
        rw [hidx]
        simp [validateAux, hr, heq]
      · simpa using hget

/-- C3. If at least one record of the collection fails its shape,
`validate_data` fails, its error names the index and the offending field
names of the (first) failing record, and no list of validated records is
produced — validation is all-or-nothing per collection. -/
theorem c3_validation_all_or_nothing {α : Type} (f : RawRecord → Except (List String) α)
    (data : List RawRecord) (h : ∃ r ∈ data, isErr (f r) = true) :
    ∃ i fs, validate_data data f = .error (i, fs) ∧
      (∃ r, data.get? i = some r ∧ f r = .error fs) ∧
      ∀ out : List α, validate_data data f ≠ .ok out := by
  obtain ⟨j, fs, heq, hr⟩ := validateAux_error_of_mem f data 0 h
  have heq0 : validate_data data f = .error (j, fs) := by
    simpa [validate_data] using heq
  refine ⟨j, fs, heq0, hr, ?_⟩
  intro out hout
  rw [heq0] at hout
  exact Except.noConfusion hout

/-- C3 witness: a one-record collection whose `userId` is a string fails
validation as a whole, with the error naming all four missing or mistyped
fields. -/
theorem c3_validation_all_or_nothing_witness :
    (∃ r ∈ ([[("userId", JValue.vStr "x")]] : List RawRecord),
        isErr (validatePost r) = true) ∧
      ∃ i fs, validate_data [[("userId", JValue.vStr "x")]] validatePost = .error (i, fs) ∧
        (∃ r, ([[("userId", JValue.vStr "x")]] : List RawRecord).get? i = some r ∧
          validatePost r = .error fs) ∧
        ∀ out : List Post,
          validate_data [[("userId", JValue.vStr "x")]] validatePost ≠ .ok out :=
  ⟨by decide,
    c3_validation_all_or_nothing validatePost [[("userId", JValue.vStr "x")]] (by decide)⟩

/-- C8. A record that supplies all four declared `Post` fields with
convertible values validates to exactly the declared fields, and prepending
any field whose name is not among the declared ones leaves the validation
result unchanged: extra fields are ignored. -/
theorem c8_extra_fields_ignored (r : RawRecord) (w1 w2 w3 w4 : JValue)
    (a b : Int) (t bo : String)
    (h1 : getField r "userId" = some w1) (hc1 : asInt w1 = some a)
    (h2 : getField r "id" = some w2) (hc2 : asInt w2 = some b)
    (h3 : getField r "title" = some w3) (hc3 : asStr w3 = some t)
    (h4 : getField r "body" = some w4) (hc4 : asStr w4 = some bo) :
    validatePost r = .ok ⟨a, b, t, bo⟩ ∧
      ∀ k v, k ∉ (["userId", "id", "title", "body"] : List String) →
        validatePost ((k, v) :: r) = .ok ⟨a, b, t, bo⟩ := by
  have e1 : checkInt r "userId" = .ok a := by simp [checkInt, h1, hc1]
  have e2 : checkInt r "id" = .ok b := by simp [checkInt, h2, hc2]
  have e3 : checkStr r "title" = .ok t := by simp [checkStr, h3, hc3]
  have e4 : checkStr r "body" = .ok bo := by simp [checkStr, h4, hc4]
  constructor
  · simp [validatePost, e1, e2, e3, e4]
  · intro k v hk
    simp only [List.mem_cons, List.not_mem_nil, or_false, not_or] at hk
    obtain ⟨n1, n2, n3, n4⟩ := hk
    have b1 : ("userId" == k) = false := beq_eq_false_iff_ne.mpr fun h => n1 h.symm
    have b2 : ("id" == k) = false := beq_eq_false_iff_ne.mpr fun h => n2 h.symm
    have b3 : ("title" == k) = false := beq_eq_false_iff_ne.mpr fun h => n3 h.symm
    have b4 : ("body" == k) = false := beq_eq_false_iff_ne.mpr fun h => n4 h.symm
    have l1 : List.lookup "userId" r = some w1 := h1
    have l2 : List.lookup "id" r = some w2 := h2
    have l3 : List.lookup "title" r = some w3 := h3
    have l4 : List.lookup "body" r = some w4 := h4
    have g1 : checkInt ((k, v) :: r) "userId" = .ok a := by
      simp [checkInt, getField, List.lookup, b1, l1, hc1]
    have g2 : checkInt ((k, v) :: r) "id" = .ok b := by
      simp [checkInt, getField, List.lookup, b2, l2, hc2]
    have g3 : checkStr ((k, v) :: r) "title" = .ok t := by
      simp [checkStr, getField, List.lookup, b3, l3, hc3]
    have g4 : checkStr ((k, v) :: r) "body" = .ok bo := by
      simp [checkStr, getField, List.lookup, b4, l4, hc4]
    simp [validatePost, g1, g2, g3, g4]

/-- C8 witness: a well-formed record with an undeclared extra field validates to
exactly the declared fields, with the extra field ignored. -/
theorem c8_extra_fields_ignored_witness :
    validatePost [("userId", JValue.vInt 1), ("id", JValue.vInt 2),
        ("title", JValue.vStr "t"), ("body", JValue.vStr "b")] =
      .ok ⟨1, 2, "t", "b"⟩ ∧
    validatePost (("extra", JValue.vBool true) ::
        [("userId", JValue.vInt 1), ("id", JValue.vInt 2),
          ("title", JValue.vStr "t"), ("body", JValue.vStr "b")]) =
      .ok ⟨1, 2, "t", "b"⟩ := by
  have h := c8_extra_fields_ignored
    [("userId", JValue.vInt 1), ("id", JValue.vInt 2),
      ("title", JValue.vStr "t"), ("body", JValue.vStr "b")]
    (JValue.vInt 1) (JValue.vInt 2) (JValue.vStr "t") (JValue.vStr "b")
    1 2 "t" "b" rfl rfl rfl rfl rfl rfl rfl rfl
  exact ⟨h.1, h.2 "extra" (JValue.vBool true) (by decide)⟩

/-- A post matching no user contributes no joined row. -/
theorem joinRows_cons_unmatched (p : Post) (ps : List Post) (us : List User)
    (h : ∀ u ∈ us, u.id ≠ p.userId) : joinRows (p :: ps) us = joinRows ps us := by
  have hfilter : (us.filter fun u => decide (u.id = p.userId)) = [] := by
    rw [List.filter_eq_nil_iff]
    intro u hu
    simpa using h u hu
  simp [joinRows, hfilter]

/-- C4. A post whose `userId` equals no loaded user's `id` is excluded by the
inner join, so adding it to the posts table leaves all three query results
unchanged: it appears in none of them. -/
theorem c4_unmatched_post_invisible (p : Post) (ps : List Post) (us : List User)
    (h : ∀ u ∈ us, u.id ≠ p.userId) :
    queryA (p :: ps) us = queryA ps us ∧
      queryB (p :: ps) us = queryB ps us ∧
      queryC (p :: ps) us = queryC ps us := by
  have hjoin := joinRows_cons_unmatched p ps us h
  refine ⟨?_, ?_, ?_⟩
  · simp only [queryA, hjoin]
  · simp only [queryB, hjoin]
  · simp only [queryC, hjoin]

/-- C4 witness: a concrete orphan post (userId 99) leaves all three query
results unchanged. -/
theorem c4_unmatched_post_invisible_witness :
    (∀ u ∈ ([⟨1, "Ann", "ann", "a"⟩] : List User), u.id ≠ (99 : Int)) ∧
      (queryA (⟨99, 7, "t7", "b7"⟩ :: [⟨1, 1, "t1", "b1"⟩]) [⟨1, "Ann", "ann", "a"⟩] =
          queryA [⟨1, 1, "t1", "b1"⟩] [⟨1, "Ann", "ann", "a"⟩] ∧
        queryB (⟨99, 7, "t7", "b7"⟩ :: [⟨1, 1, "t1", "b1"⟩]) [⟨1, "Ann", "ann", "a"⟩] =
          queryB [⟨1, 1, "t1", "b1"⟩] [⟨1, "Ann", "ann", "a"⟩] ∧
        queryC (⟨99, 7, "t7", "b7"⟩ :: [⟨1, 1, "t1", "b1"⟩]) [⟨1, "Ann", "ann", "a"⟩] =
          queryC [⟨1, 1, "t1", "b1"⟩] [⟨1, "Ann", "ann", "a"⟩]) :=
  ⟨by decide,
    c4_unmatched_post_invisible ⟨99, 7, "t7", "b7"⟩ [⟨1, 1, "t1", "b1"⟩]
      [⟨1, "Ann", "ann", "a"⟩] (by decide)⟩

/-- Membership in a first-occurrence deduplication. -/
theorem mem_dedupKeep (n : String) :
    ∀ (l seen : List String), n ∈ dedupKeep seen l ↔ n ∈ l ∧ n ∉ seen := by
  intro l
  induction l with
  | nil => intro seen; simp [dedupKeep]
  | cons m ms ih =>
    intro seen
    by_cases hm : m ∈ seen
    · rw [dedupKeep, if_pos hm, ih]
      constructor
      · rintro ⟨h1, h2⟩
        exact ⟨List.mem_cons_of_mem m h1, h2⟩
      · rintro ⟨h1, h2⟩
        rcases List.mem_cons.mp h1 with rfl | h1'
        · exact absurd hm h2
        · exact ⟨h1', h2⟩
    · rw [dedupKeep, if_neg hm]
      constructor
      · intro h
        rcases List.mem_cons.mp h with rfl | h'
        · exact ⟨List.mem_cons_self n ms, hm⟩
        · obtain ⟨h1, h2⟩ := (ih (m :: seen)).mp h'
          exact ⟨List.mem_cons_of_mem m h1,
            fun hs => h2 (List.mem_cons_of_mem m hs)⟩
      · rintro ⟨h1, h2⟩
        rcases List.mem_cons.mp h1 with rfl | h1'
        · exact List.mem_cons_self n _
        · by_cases hnm : n = m
          · exact hnm ▸ List.mem_cons_self n _
          · refine List.mem_cons_of_mem m ((ih (m :: seen)).mpr ⟨h1', ?_⟩)
            intro hc
            rcases List.mem_cons.mp hc with hc1 | hc1
            · exact hnm hc1
            · exact h2 hc1

/-- First-occurrence deduplication produces a list without duplicates. -/
theorem dedupKeep_nodup : ∀ (l seen : List String), (dedupKeep seen l).Nodup := by
  intro l
  induction l with
  | nil => intro seen; simp [dedupKeep]
  | cons m ms ih =>
    intro seen
    by_cases hm : m ∈ seen
    · rw [dedupKeep, if_pos hm]
      exact ih seen
    · rw [dedupKeep, if_neg hm, List.nodup_cons]
      refine ⟨?_, ih (m :: seen)⟩
      intro hmem
      exact ((mem_dedupKeep m ms (m :: seen)).mp hmem).2 (List.mem_cons_self m seen)

/-- In a list without duplicates, exactly one element is equal to a member. -/
theorem countP_eq_one_of_nodup {α : Type} [DecidableEq α] :
    ∀ (l : List α) (u : α), l.Nodup → u ∈ l →
      l.countP (fun v => decide (v = u)) = 1 := by
  intro l
  induction l with
  | nil => intro u _ hu; cases hu
  | cons a l ih =>
    intro u hnd hu
    rw [List.nodup_cons] at hnd
    rcases List.mem_cons.mp hu with rfl | hu'
    · rw [List.countP_cons]
      have h0 : l.countP (fun v => decide (v = u)) = 0 := by
        rw [List.countP_eq_zero]
        intro v hv
        simp only [decide_eq_true_eq]
        rintro rfl
        exact hnd.1 hv
      simp [h0]
    · have hne : a ≠ u := fun h => hnd.1 (h ▸ hu')
      rw [List.countP_cons, ih u hnd.2 hu']
      simp [hne]

/-- No element of a list is equal to a non-member. -/
theorem countP_eq_zero_of_not_mem {α : Type} [DecidableEq α] (l : List α) (u : α)
    (hu : u ∉ l) : l.countP (fun v => decide (v = u)) = 0 := by
  rw [List.countP_eq_zero]
  intro v hv
  simp only [decide_eq_true_eq]
  rintro rfl
  exact hu hv

/-- Splitting the join at the head post. -/
theorem joinRows_cons (p : Post) (ps : List Post) (us : List User) :
    joinRows (p :: ps) us =
      ((us.filter fun u => decide (u.id = p.userId)).map fun u => (u, p)) ++
        joinRows ps us := by
  simp [joinRows]

/-- Every joined row pairs a listed user with a listed post they match. -/
theorem mem_joinRows {row : User × Post} {ps : List Post} {us : List User}
    (h : row ∈ joinRows ps us) :
    row.1 ∈ us ∧ row.1.id = row.2.userId ∧ row.2 ∈ ps := by
  simp only [joinRows, List.mem_flatMap, List.mem_map, List.mem_filter,
    decide_eq_true_eq] at h
  obtain ⟨p, hp, u, ⟨hu, hid⟩, heq⟩ := h
  subst heq
  exact ⟨hu, hid, hp⟩

/-- When users are pairwise distinct, the joined rows whose user component is
a given listed user are exactly that user's matching posts. -/
theorem countP_user_joinRows (u : User) (us : List User) (hu : u ∈ us)
    (hnd : us.Nodup) :
    ∀ ps : List Post,
      (joinRows ps us).countP (fun row => decide (row.1 = u)) = matchCount ps u := by
  intro ps
  induction ps with
  | nil => simp [joinRows, matchCount]
  | cons p ps ih =>
    have hmc : matchCount (p :: ps) u =
        (if u.id = p.userId then 1 else 0) + matchCount ps u := by
      rw [matchCount, matchCount, ← List.countP_eq_length_filter,
        ← List.countP_eq_length_filter, List.countP_cons]
      by_cases hc : u.id = p.userId
      · simp [hc]
        omega
      · simp [hc]
    have hhead : (((us.filter fun v => decide (v.id = p.userId)).map
        fun v => (v, p)).countP fun row => decide (row.1 = u)) =
        if u.id = p.userId then 1 else 0 := by
      rw [List.countP_map]
      by_cases hc : u.id = p.userId
      · rw [if_pos hc]
        have h1 : ((us.filter fun v => decide (v.id = p.userId)).countP
            fun v => decide (v = u)) = 1 :=
          countP_eq_one_of_nodup _ u (hnd.filter _)
            (List.mem_filter.mpr ⟨hu, by simp [hc]⟩)
        simpa [Function.comp] using h1
      · rw [if_neg hc]
        have h0 : ((us.filter fun v => decide (v.id = p.userId)).countP
            fun v => decide (v = u)) = 0 := by
          apply countP_eq_zero_of_not_mem
          intro hmem
          exact hc (by simpa using (List.mem_filter.mp hmem).2)
        simpa [Function.comp] using h0
    rw [joinRows_cons, List.countP_append, hhead, ih, hmc]

/-- `rowCount` as a `countP`. -/
theorem rowCount_countP (rows : List (User × Post)) (n : String) :
    rowCount rows n = rows.countP (fun row => decide (nameOf row = n)) :=
  (List.countP_eq_length_filter _ _).symm

/-- When user names are pairwise distinct, the group of a user's name counts
exactly that user's matching posts. -/
theorem rowCount_eq_matchCount (ps : List Post) (us : List User) (u : User)
    (hu : u ∈ us) (hnd : us.Nodup)
    (hinj : ∀ u1 ∈ us, ∀ u2 ∈ us, u1.name = u2.name → u1 = u2) :
    rowCount (joinRows ps us) u.name = matchCount ps u := by
  rw [rowCount_countP, ← countP_user_joinRows u us hu hnd ps]
  apply Nat.le_antisymm
  · apply List.countP_mono_left
    intro row hrow hp
    simp only [decide_eq_true_eq] at hp ⊢
    exact hinj row.1 (mem_joinRows hrow).1 u hu hp
  · apply List.countP_mono_left
    intro row hrow hp
    simp only [decide_eq_true_eq] at hp ⊢
    rw [nameOf, hp]

/-- A name occurs among the joined rows exactly when its group is nonempty. -/
theorem name_mem_iff (rows : List (User × Post)) (n : String) :
    n ∈ rows.map nameOf ↔ 0 < rowCount rows n := by
  rw [rowCount_countP, List.countP_pos_iff]
  simp only [List.mem_map, decide_eq_true_eq]

/-- Membership in the grouped counts. -/
theorem mem_groupCounts {rows : List (User × Post)} {x : String × Nat} :
    x ∈ groupCounts rows ↔ x.1 ∈ rows.map nameOf ∧ x.2 = rowCount rows x.1 := by
  constructor
  · intro h
    obtain ⟨n, hn, heq⟩ := List.mem_map.mp h
    obtain ⟨h1, _⟩ := (mem_dedupKeep n _ _).mp hn
    cases heq
    exact ⟨h1, rfl⟩
  · rintro ⟨h1, h2⟩
    apply List.mem_map.mpr
    refine ⟨x.1, (mem_dedupKeep x.1 _ _).mpr ⟨h1, by simp⟩, ?_⟩
    cases x with
    | mk a b => simp only at h2; rw [h2]

/-- Membership in the grouped totals. -/
theorem mem_groupTotals {rows : List (User × Post)} {x : String × Nat} :
    x ∈ groupTotals rows ↔ x.1 ∈ rows.map nameOf ∧ x.2 = rowTotal rows x.1 := by
  constructor
  · intro h
    obtain ⟨n, hn, heq⟩ := List.mem_map.mp h
    obtain ⟨h1, _⟩ := (mem_dedupKeep n _ _).mp hn
    cases heq
    exact ⟨h1, rfl⟩
  · rintro ⟨h1, h2⟩
    apply List.mem_map.mpr
    refine ⟨x.1, (mem_dedupKeep x.1 _ _).mpr ⟨h1, by simp⟩, ?_⟩
    cases x with
    | mk a b => simp only at h2; rw [h2]

/-- Sorting does not change membership in query A. -/
theorem mem_queryA {ps : List Post} {us : List User} {x : String × Nat} :
    x ∈ queryA ps us ↔ x ∈ groupCounts (joinRows ps us) :=
  (List.perm_insertionSort byCountDesc _).mem_iff

/-- C5. When loaded users are pairwise distinct with pairwise-distinct
display names, Query A contains the pair (name, post count) for every user
with at least one matching post, omits users with no matching post, is
ordered descending by count, and on the spec's example returns
`[("Ann", 2), ("Bo", 1)]`. -/
theorem c5_queryA_posts_per_user (ps : List Post) (us : List User)
    (hnd : us.Nodup)
    (hinj : ∀ u1 ∈ us, ∀ u2 ∈ us, u1.name = u2.name → u1 = u2) :
    (∀ u ∈ us, 0 < matchCount ps u → (u.name, matchCount ps u) ∈ queryA ps us) ∧
      (∀ u ∈ us, matchCount ps u = 0 → ∀ c, (u.name, c) ∉ queryA ps us) ∧
      (queryA ps us).Sorted byCountDesc ∧
      queryA ([⟨1, 1, "t1", "b1"⟩, ⟨1, 2, "t2", "b2"⟩, ⟨2, 3, "t3", "b3"⟩].map postToRow)
          ([⟨1, "Ann", "ann", "a@x"⟩, ⟨2, "Bo", "bo", "b@x"⟩].map userToRow) =
        [("Ann", 2), ("Bo", 1)] := by
  refine ⟨?_, ?_, ?_, by decide⟩
  · intro u hu hpos
    apply mem_queryA.mpr
    apply mem_groupCounts.mpr
    have hrc := rowCount_eq_matchCount ps us u hu hnd hinj
    exact ⟨(name_mem_iff _ _).mpr (by rw [hrc]; exact hpos), hrc.symm⟩
  · intro u hu hzero c hc
    have h := mem_groupCounts.mp (mem_queryA.mp hc)
    have hpos := (name_mem_iff _ _).mp h.1
    rw [rowCount_eq_matchCount ps us u hu hnd hinj, hzero] at hpos
    exact Nat.lt_irrefl 0 hpos
  · exact List.sorted_insertionSort byCountDesc _

/-- C5 witness: the spec's example users are duplicate-free with distinct
names, and the stated Query A facts hold for them. -/
theorem c5_queryA_posts_per_user_witness :
    ([⟨1, "Ann", "ann", "a@x"⟩, ⟨2, "Bo", "bo", "b@x"⟩] : List User).Nodup ∧
      (∀ u1 ∈ ([⟨1, "Ann", "ann", "a@x"⟩, ⟨2, "Bo", "bo", "b@x"⟩] : List User),
        ∀ u2 ∈ ([⟨1, "Ann", "ann", "a@x"⟩, ⟨2, "Bo", "bo", "b@x"⟩] : List User),
          u1.name = u2.name → u1 = u2) ∧
      ((∀ u ∈ ([⟨1, "Ann", "ann", "a@x"⟩, ⟨2, "Bo", "bo", "b@x"⟩] : List User),
          0 < matchCount [⟨1, 1, "t1", "b1"⟩, ⟨1, 2, "t2", "b2"⟩, ⟨2, 3, "t3", "b3"⟩] u →
          (u.name, matchCount [⟨1, 1, "t1", "b1"⟩, ⟨1, 2, "t2", "b2"⟩, ⟨2, 3, "t3", "b3"⟩] u) ∈
            queryA [⟨1, 1, "t1", "b1"⟩, ⟨1, 2, "t2", "b2"⟩, ⟨2, 3, "t3", "b3"⟩]
              [⟨1, "Ann", "ann", "a@x"⟩, ⟨2, "Bo", "bo", "b@x"⟩]) ∧
        (∀ u ∈ ([⟨1, "Ann", "ann", "a@x"⟩, ⟨2, "Bo", "bo", "b@x"⟩] : List User),
          matchCount [⟨1, 1, "t1", "b1"⟩, ⟨1, 2, "t2", "b2"⟩, ⟨2, 3, "t3", "b3"⟩] u = 0 →
          ∀ c, (u.name, c) ∉
            queryA [⟨1, 1, "t1", "b1"⟩, ⟨1, 2, "t2", "b2"⟩, ⟨2, 3, "t3", "b3"⟩]
              [⟨1, "Ann", "ann", "a@x"⟩, ⟨2, "Bo", "bo", "b@x"⟩]) ∧
        (queryA [⟨1, 1, "t1", "b1"⟩, ⟨1, 2, "t2", "b2"⟩, ⟨2, 3, "t3", "b3"⟩]
          [⟨1, "Ann", "ann", "a@x"⟩, ⟨2, "Bo", "bo", "b@x"⟩]).Sorted byCountDesc ∧
        queryA ([⟨1, 1, "t1", "b1"⟩, ⟨1, 2, "t2", "b2"⟩, ⟨2, 3, "t3", "b3"⟩].map postToRow)
            ([⟨1, "Ann", "ann", "a@x"⟩, ⟨2, "Bo", "bo", "b@x"⟩].map userToRow) =
          [("Ann", 2), ("Bo", 1)]) :=
  ⟨by decide, by decide,
    c5_queryA_posts_per_user
      [⟨1, 1, "t1", "b1"⟩, ⟨1, 2, "t2", "b2"⟩, ⟨2, 3, "t3", "b3"⟩]
      [⟨1, "Ann", "ann", "a@x"⟩, ⟨2, "Bo", "bo", "b@x"⟩] (by decide) (by decide)⟩

/-- C6 counterexample. Two users with distinct ids but the same display name
each author one post: two distinct users have posts — fewer than 3 — yet
Query C returns a single merged row, not two, because the grouping key is
`users.name`. -/
theorem c6_distinct_users_counterexample :
    (([⟨1, "A", "u1", "e1"⟩, ⟨2, "A", "u2", "e2"⟩] : List User).filter
        fun u => decide (0 < matchCount [⟨1, 1, "t1", "b1"⟩, ⟨2, 2, "t2", "b2"⟩] u)).length = 2 ∧
      (queryC [⟨1, 1, "t1", "b1"⟩, ⟨2, 2, "t2", "b2"⟩]
        [⟨1, "A", "u1", "e1"⟩, ⟨2, "A", "u2", "e2"⟩]).length = 1 := by
  constructor
  · decide
  · decide

/-- C6 amended. Query C returns total body length per distinct user *name*,
ordered descending, truncated to at most 3 rows; its row count equals
`min 3` (number of distinct names among joined rows), so with fewer than 3
distinct names having posts it returns exactly that many rows — no padding,
no error. -/
theorem c6_queryC_top3 (ps : List Post) (us : List User) :
    (queryC ps us).length =
        min 3 (dedupKeep [] ((joinRows ps us).map nameOf)).length ∧
      (queryC ps us).length ≤ 3 ∧
      (queryC ps us).Sorted byCountDesc ∧
      ∀ x ∈ queryC ps us, x.2 = rowTotal (joinRows ps us) x.1 := by
  refine ⟨?_, ?_, ?_, ?_⟩
  · rw [queryC, List.length_take, List.length_insertionSort, groupTotals,
      List.length_map]
  · rw [queryC, List.length_take]
    exact Nat.min_le_left 3 _
  · exact (List.sorted_insertionSort byCountDesc _).sublist
      (List.take_sublist 3 _)
  · intro x hx
    have hx' : x ∈ List.insertionSort byCountDesc (groupTotals (joinRows ps us)) :=
      (List.take_sublist 3 _).mem hx
    have hx'' : x ∈ groupTotals (joinRows ps us) :=
      (List.perm_insertionSort byCountDesc _).mem_iff.mp hx'
    exact (mem_groupTotals.mp hx'').2

/-- Counting two disjoint kinds of elements is bounded by counting a kind
that subsumes both. -/
theorem countP_add_le_of_disjoint {α : Type} (l : List α) (p q rp : α → Bool)
    (hdisj : ∀ a ∈ l, ¬(p a = true ∧ q a = true))
    (hpr : ∀ a ∈ l, p a = true → rp a = true)
    (hqr : ∀ a ∈ l, q a = true → rp a = true) :
    l.countP p + l.countP q ≤ l.countP rp := by
  induction l with
  | nil => simp
  | cons a l ih =>
    have ih' := ih (fun x hx => hdisj x (List.mem_cons_of_mem a hx))
      (fun x hx => hpr x (List.mem_cons_of_mem a hx))
      (fun x hx => hqr x (List.mem_cons_of_mem a hx))
    have hda := hdisj a (List.mem_cons_self a l)
    have hpa := hpr a (List.mem_cons_self a l)
    have hqa := hqr a (List.mem_cons_self a l)
    rw [List.countP_cons, List.countP_cons, List.countP_cons]
    cases hpv : p a <;> cases hqv : q a <;> cases hrv : rp a
    case false.false.false => simp [hpv, hqv, hrv]; omega
    case false.false.true => simp [hpv, hqv, hrv]; omega
    case false.true.false => exact absurd (hqa hqv) (by simp [hrv])
    case false.true.true => simp [hpv, hqv, hrv]; omega
    case true.false.false => exact absurd (hpa hpv) (by simp [hrv])
    case true.false.true => simp [hpv, hqv, hrv]; omega
    case true.true.false => exact absurd ⟨hpv, hqv⟩ hda
    case true.true.true => exact absurd ⟨hpv, hqv⟩ hda

/-- Counting result rows of query A carrying a given name reduces to
counting that name among the deduplicated group keys. -/
theorem countP_fst_groupCounts (rows : List (User × Post)) (n : String) :
    ((groupCounts rows).countP fun x => decide (x.1 = n)) =
      ((dedupKeep [] (rows.map nameOf)).countP fun m => decide (m = n)) := by
  rw [groupCounts, List.countP_map]
  rfl

/-- Counting result rows of query C's grouping carrying a given name reduces
to counting that name among the deduplicated group keys. -/
theorem countP_fst_groupTotals (rows : List (User × Post)) (n : String) :
    ((groupTotals rows).countP fun x => decide (x.1 = n)) =
      ((dedupKeep [] (rows.map nameOf)).countP fun m => decide (m = n)) := by
  rw [groupTotals, List.countP_map]
  rfl

/-- C9. Two distinct users (different ids) sharing a display name, each with
at least one post, produce a single merged row: Query A has exactly one row
under the shared name, carrying the count of *all* joined rows with that name
(at least the sum of both users' post counts); Query C never shows two rows
for the name, and any row it shows under the name carries the merged total
body length. -/
theorem c9_shared_name_rows_merged (ps : List Post) (us : List User)
    (u1 u2 : User) (h1 : u1 ∈ us) (h2 : u2 ∈ us) (hid : u1.id ≠ u2.id)
    (hname : u1.name = u2.name) (hnd : us.Nodup)
    (hp1 : 0 < matchCount ps u1) (_hp2 : 0 < matchCount ps u2) :
    ((queryA ps us).countP fun x => decide (x.1 = u1.name)) = 1 ∧
      (∀ c, (u1.name, c) ∈ queryA ps us →
        c = rowCount (joinRows ps us) u1.name ∧
          matchCount ps u1 + matchCount ps u2 ≤ c) ∧
      ((queryC ps us).countP fun x => decide (x.1 = u1.name)) ≤ 1 ∧
      ∀ t, (u1.name, t) ∈ queryC ps us → t = rowTotal (joinRows ps us) u1.name := by
  have hrowpos : 0 < rowCount (joinRows ps us) u1.name := by
    rw [rowCount_countP]
    calc 0 < matchCount ps u1 := hp1
      _ = (joinRows ps us).countP (fun row => decide (row.1 = u1)) :=
        (countP_user_joinRows u1 us h1 hnd ps).symm
      _ ≤ (joinRows ps us).countP (fun row => decide (nameOf row = u1.name)) := by
        apply List.countP_mono_left
        intro row hrow hp
        simp only [decide_eq_true_eq] at hp ⊢
        rw [nameOf, hp]
  have hdmem : u1.name ∈ dedupKeep [] ((joinRows ps us).map nameOf) :=
    (mem_dedupKeep _ _ _).mpr ⟨(name_mem_iff _ _).mpr hrowpos, by simp⟩
  have hdnodup : (dedupKeep [] ((joinRows ps us).map nameOf)).Nodup :=
    dedupKeep_nodup _ []
  have hcount1 : ((dedupKeep [] ((joinRows ps us).map nameOf)).countP
      fun m => decide (m = u1.name)) = 1 :=
    countP_eq_one_of_nodup _ u1.name hdnodup hdmem
  refine ⟨?_, ?_, ?_, ?_⟩
  · rw [queryA, (List.perm_insertionSort byCountDesc _).countP_eq,
      countP_fst_groupCounts, hcount1]
  · intro c hc
    have h := mem_groupCounts.mp (mem_queryA.mp hc)
    have hc2 : c = rowCount (joinRows ps us) u1.name := h.2
    refine ⟨hc2, ?_⟩
    rw [hc2, rowCount_countP, ← countP_user_joinRows u1 us h1 hnd ps,
      ← countP_user_joinRows u2 us h2 hnd ps]
    apply countP_add_le_of_disjoint
    · rintro row _ ⟨ha, hb⟩
      simp only [decide_eq_true_eq] at ha hb
      exact hid (by rw [ha] at hb; rw [hb])
    · intro row _ hp
      simp only [decide_eq_true_eq] at hp ⊢
      rw [nameOf, hp]
    · intro row _ hp
      simp only [decide_eq_true_eq] at hp ⊢
      rw [nameOf, hp, hname]
  · calc ((queryC ps us).countP fun x => decide (x.1 = u1.name))
        ≤ ((List.insertionSort byCountDesc (groupTotals (joinRows ps us))).countP
            fun x => decide (x.1 = u1.name)) :=
          (List.take_sublist 3 _).countP_le _
      _ = ((groupTotals (joinRows ps us)).countP fun x => decide (x.1 = u1.name)) :=
          (List.perm_insertionSort byCountDesc _).countP_eq _
      _ = 1 := by rw [countP_fst_groupTotals, hcount1]
  · intro t ht
    have ht' : (u1.name, t) ∈ groupTotals (joinRows ps us) :=
      (List.perm_insertionSort byCountDesc _).mem_iff.mp
        ((List.take_sublist 3 _).mem ht)
    exact (mem_groupTotals.mp ht').2

/-- C9 witness: two users with ids 1 and 2 sharing the name `N`, each with
one post, merge into single rows in queries A and C. -/
theorem c9_shared_name_rows_merged_witness :
    ((⟨1, "N", "x", "e1"⟩ : User) ∈ ([⟨1, "N", "x", "e1"⟩, ⟨2, "N", "y", "e2"⟩] : List User)) ∧
      (((queryA [⟨1, 10, "t", "aa"⟩, ⟨2, 11, "s", "bbb"⟩]
            [⟨1, "N", "x", "e1"⟩, ⟨2, "N", "y", "e2"⟩]).countP
          fun x => decide (x.1 = (⟨1, "N", "x", "e1"⟩ : User).name)) = 1 ∧
        (∀ c, ((⟨1, "N", "x", "e1"⟩ : User).name, c) ∈
            queryA [⟨1, 10, "t", "aa"⟩, ⟨2, 11, "s", "bbb"⟩]
              [⟨1, "N", "x", "e1"⟩, ⟨2, "N", "y", "e2"⟩] →
          c = rowCount (joinRows [⟨1, 10, "t", "aa"⟩, ⟨2, 11, "s", "bbb"⟩]
              [⟨1, "N", "x", "e1"⟩, ⟨2, "N", "y", "e2"⟩]) (⟨1, "N", "x", "e1"⟩ : User).name ∧
            matchCount [⟨1, 10, "t", "aa"⟩, ⟨2, 11, "s", "bbb"⟩] (⟨1, "N", "x", "e1"⟩ : User) +
              matchCount [⟨1, 10, "t", "aa"⟩, ⟨2, 11, "s", "bbb"⟩] (⟨2, "N", "y", "e2"⟩ : User) ≤ c) ∧
        ((queryC [⟨1, 10, "t", "aa"⟩, ⟨2, 11, "s", "bbb"⟩]
            [⟨1, "N", "x", "e1"⟩, ⟨2, "N", "y", "e2"⟩]).countP
          fun x => decide (x.1 = (⟨1, "N", "x", "e1"⟩ : User).name)) ≤ 1 ∧
        ∀ t, ((⟨1, "N", "x", "e1"⟩ : User).name, t) ∈
            queryC [⟨1, 10, "t", "aa"⟩, ⟨2, 11, "s", "bbb"⟩]
              [⟨1, "N", "x", "e1"⟩, ⟨2, "N", "y", "e2"⟩] →
          t = rowTotal (joinRows [⟨1, 10, "t", "aa"⟩, ⟨2, 11, "s", "bbb"⟩]
              [⟨1, "N", "x", "e1"⟩, ⟨2, "N", "y", "e2"⟩]) (⟨1, "N", "x", "e1"⟩ : User).name) :=
  ⟨by decide,
    c9_shared_name_rows_merged [⟨1, 10, "t", "aa"⟩, ⟨2, 11, "s", "bbb"⟩]
      [⟨1, "N", "x", "e1"⟩, ⟨2, "N", "y", "e2"⟩]
      ⟨1, "N", "x", "e1"⟩ ⟨2, "N", "y", "e2"⟩
      (by decide) (by decide) (by decide) (by decide) (by decide)
      (by decide) (by decide)⟩

end PipelineModel
